import Mathlib

/-!
Verification of the Ethereum-claims runtime module (`src/runtime/src/claims.rs`).

The module is shallowly embedded: bytes become `Nat`, byte arrays become
`List Nat`, the storage map `Claims` becomes an association list with a
lookup/remove/insert discipline matching the storage semantics, the storage
value `Total` becomes a `Nat`, and the dispatchable `claim` becomes a pure
state-transition function returning the new state together with an outcome
(success, a user-facing error string, or the fatal internal-consistency
fault).  The external cryptographic primitives (keccak256 and secp256k1
recovery, from external crates) are abstracted into a `Crypto` structure
whose fields carry the length guarantees the Rust types provide
(`[u8; 32]` hashes, `[u8; 65]` serialized public keys).
-/

namespace PolkadotClaims

/-- Bytes are modelled as natural numbers (each `< 256` in the real program). -/
abbrev Byte := Nat

/-- `type EthereumAddress = [u8; 20]` (claims.rs line 33), modelled as a byte list. -/
abbrev EthereumAddress := List Byte

/-- The SCALE-encoded bytes of a `T::AccountId` (what `sender.using_encoded` passes on). -/
abbrev AccountId := List Byte

/-- ASCII bytes of a string literal. -/
def asBytes (str : String) : List Byte := str.toList.map Char.toNat

/-- The fixed claim text `b"Pay DOTs to the Polkadot account:"` (claims.rs line 76). -/
def claimText : List Byte := asBytes "Pay DOTs to the Polkadot account:"

/-- The personal-message header `b"\x19Ethereum Signed Message:\n"` (claims.rs line 83). -/
def ethHeader : List Byte := asBytes "\x19Ethereum Signed Message:\n"

/-- The digit loop of `create_msg` (claims.rs lines 77-82): repeatedly divide the
length by 10 and push `b'0' + l % 10`, producing the ASCII decimal digits
least-significant first. -/
def decRev (l : Nat) : List Byte :=
  if h : l = 0 then [] else (48 + l % 10) :: decRev (l / 10)
decreasing_by exact Nat.div_lt_self (Nat.pos_of_ne_zero h) (by norm_num)

/-- `create_msg` (claims.rs lines 75-88): header, then the reversed digit list,
then the fixed claim text, then the raw identifier bytes. -/
def createMsg (who : List Byte) : List Byte :=
  ethHeader ++ (decRev (claimText.length + who.length)).reverse ++ claimText ++ who

/-- Specification-side decimal rendering: the base-10 digits of `n`, written
most-significant-digit-first, each as its ASCII code. -/
def asciiDecimalMSB (n : Nat) : List Byte :=
  ((Nat.digits 10 n).map (fun d => 48 + d)).reverse

/-- `type EcdsaSignature = ([u8; 32], [u8; 32], i8)` (claims.rs line 34). -/
structure EcdsaSignature where
  r : List Byte
  s : List Byte
  v : Int
deriving DecidableEq

/-- The Rust cast `sig.2 as u8` of the `i8` recovery byte: two's-complement
reinterpretation, i.e. the value modulo 256. -/
def i8ToU8 (v : Int) : Nat := (v % 256).toNat

/-- Models the external secp256k1 crate's `RecoveryId::parse` (called at
claims.rs line 68): it accepts exactly the recovery ids `0..=3` and rejects
every other byte (in particular the Ethereum-RPC values 27 and 28). -/
def recoveryIdParse (p : Nat) : Option Nat :=
  if p ≤ 3 then some p else none

/-- Abstraction of the external crates used by the module: `keccak256` always
returns a 32-byte hash (`[u8; 32]` in Rust); `sigParseOk` tells whether
`Signature::parse_slice` accepts the 64 concatenated `r ‖ s` bytes;
`recoverPubkey msg rs rid` models `secp256k1::recover` returning the 65-byte
serialized uncompressed public key (`[u8; 65]` in Rust) or failing. -/
structure Crypto where
  keccak256 : List Byte → List Byte
  sigParseOk : List Byte → Bool
  recoverPubkey : List Byte → List Byte → Nat → Option (List Byte)
  keccak256_length : ∀ bs, (keccak256 bs).length = 32
  recoverPubkey_length : ∀ msg rs rid pk, recoverPubkey msg rs rid = some pk → pk.length = 65

/-- `ecdsa_recover` (claims.rs lines 64-73): parse `r ‖ s` (the SCALE encoding
of the pair of 32-byte arrays), parse the recovery id cast to `u8`, run curve
recovery, and return bytes `[1..65]` of the serialized public key. -/
def ecdsaRecover (C : Crypto) (sig : EcdsaSignature) (msg : List Byte) : Option (List Byte) :=
  if C.sigParseOk (sig.r ++ sig.s) then
    match recoveryIdParse (i8ToU8 sig.v) with
    | some rid =>
      match C.recoverPubkey msg (sig.r ++ sig.s) rid with
      | some pk => some ((pk.drop 1).take 64)
      | none => none
    | none => none
  else none

/-- `eth_recover` (claims.rs lines 90-95): hash the constructed message, recover
the 64-byte public key, and take bytes `[12..]` of its keccak256 hash. -/
def ethRecover (C : Crypto) (sig : EcdsaSignature) (who : List Byte) :
    Option EthereumAddress :=
  match ecdsaRecover C sig (C.keccak256 (createMsg who)) with
  | some pk => some ((C.keccak256 pk).drop 12)
  | none => none

/-- Lookup in the storage map, modelled as first-match association-list lookup. -/
def mapLookup (m : List (EthereumAddress × Nat)) (k : EthereumAddress) : Option Nat :=
  match m with
  | [] => none
  | (a, b) :: rest => if a = k then some b else mapLookup rest k

/-- Removal of a key from the storage map (the remove half of `take`). -/
def mapRemove (m : List (EthereumAddress × Nat)) (k : EthereumAddress) :
    List (EthereumAddress × Nat) :=
  m.filter (fun p => decide (p.1 ≠ k))

/-- Insertion into the storage map: the new binding replaces any old one. -/
def mapInsert (m : List (EthereumAddress × Nat)) (k : EthereumAddress) (v : Nat) :
    List (EthereumAddress × Nat) :=
  (k, v) :: mapRemove m k

/-- The keys of the storage map. -/
def mapKeys (m : List (EthereumAddress × Nat)) : List EthereumAddress := m.map Prod.fst

/-- Sum of all balances currently present in the map. -/
def sumValues (m : List (EthereumAddress × Nat)) : Nat := (m.map Prod.snd).sum

/-- Outcome of a `claim` dispatch: success (the dispatchable returns unit), a
user-facing error string, or the fatal internal-consistency fault raised when
`Total` is smaller than the balance being removed (claims.rs line 115). -/
inductive ClaimOutcome where
  | ok : ClaimOutcome
  | err : String → ClaimOutcome
  | fatal : ClaimOutcome
deriving DecidableEq

/-- The persistent state the module touches: the `Claims` map, the `Total`
value, the external balances ledger, and the event log. -/
structure ModuleState where
  claims : List (EthereumAddress × Nat)
  total : Nat
  balances : List (AccountId × Nat)
  events : List (AccountId × EthereumAddress × Nat)
deriving DecidableEq

/-- Models the external balances module's
`increase_free_balance_creating(&sender, balance_due)` (claims.rs line 120):
credit the account, creating it if absent. -/
def increaseFreeBalanceCreating (bs : List (AccountId × Nat)) (a : AccountId) (amount : Nat) :
    List (AccountId × Nat) :=
  match mapLookup bs a with
  | some b => mapInsert bs a (b + amount)
  | none => mapInsert bs a amount

/-- The `claim` dispatchable (claims.rs lines 103-124), after origin
authentication: recover the signer from the signature over the sender's
encoded bytes, `take` the signer's entry, check and decrement `Total`, credit
the sender, and deposit a `Claimed` event. -/
def claimCall (C : Crypto) (sender : AccountId) (sig : EcdsaSignature) (st : ModuleState) :
    ModuleState × ClaimOutcome :=
  match ethRecover C sig sender with
  | none => (st, ClaimOutcome.err "Invalid Ethereum signature")
  | some signer =>
    match mapLookup st.claims signer with
    | none => (st, ClaimOutcome.err "Ethereum address has no claim")
    | some balanceDue =>
      let st1 : ModuleState := { st with claims := mapRemove st.claims signer }
      if st1.total < balanceDue then (st1, ClaimOutcome.fatal)
      else
        ({ st1 with
            total := st1.total - balanceDue,
            balances := increaseFreeBalanceCreating st1.balances sender balanceDue,
            events := st1.events ++ [(sender, signer, balanceDue)] },
         ClaimOutcome.ok)

/-- Genesis construction (claims.rs lines 52-61): the `Claims` map is built by
inserting every seed pair in order (later pairs overwrite earlier ones with the
same address), and `Total` is the fold-sum of all seed balances. -/
def genesisState (seed : List (EthereumAddress × Nat)) : ModuleState :=
  { claims := seed.foldl (fun m p => mapInsert m p.1 p.2) []
    total := seed.foldl (fun acc p => acc + p.2) 0
    balances := []
    events := [] }

/-- Run a sequence of `claim` invocations, keeping only the resulting states. -/
def runCalls (C : Crypto) (st : ModuleState) (calls : List (AccountId × EcdsaSignature)) :
    ModuleState :=
  calls.foldl (fun s c => (claimCall C c.1 c.2 s).1) st

/-- A concrete instantiation of the crypto abstraction used to evaluate the
embedding on closed inputs. -/
def demoCrypto : Crypto where
  keccak256 := fun _ => List.replicate 32 0
  sigParseOk := fun _ => true
  recoverPubkey := fun _ _ _ => some (List.replicate 65 0)
  keccak256_length := fun _ => by simp
  recoverPubkey_length := fun msg rs rid pk h => by
    simp only [Option.some.injEq] at h
    subst h
    simp

/-- The address every `demoCrypto` recovery produces. -/
def addr0 : EthereumAddress := List.replicate 20 0

/-- A concrete caller account identifier. -/
def sender0 : AccountId := [42]

/-- A concrete signature with recovery id 0. -/
def sig0 : EcdsaSignature :=
  { r := List.replicate 32 0, s := List.replicate 32 0, v := 0 }

/-- A state holding a single claim of 100 for `addr0`. -/
def stateA : ModuleState :=
  { claims := [(addr0, 100)], total := 100, balances := [], events := [] }

/-- A state holding a single claim of 7 for `addr0`. -/
def stateB : ModuleState :=
  { claims := [(addr0, 7)], total := 7, balances := [], events := [] }

/-- A state with an empty claims ledger. -/
def stateEmpty : ModuleState :=
  { claims := [], total := 0, balances := [], events := [] }

/-! ### Helper lemmas about the digit loop -/

/-- The digit loop produces exactly the ASCII codes of the base-10 digits of
its argument, least-significant first. -/
theorem decRev_eq_digits (l : Nat) :
    decRev l = (Nat.digits 10 l).map (fun d => 48 + d) := by
  induction l using Nat.strong_induction_on with
  | _ l ih =>
    rw [decRev]
    by_cases h : l = 0
    · subst h
      simp
    · rw [dif_neg h, ih (l / 10) (Nat.div_lt_self (Nat.pos_of_ne_zero h) (by norm_num)),
        Nat.digits_def' (by norm_num : (1 : Nat) < 10) (Nat.pos_of_ne_zero h)]
      simp

/-! ### Helper lemmas about the storage map -/

theorem mapLookup_eq_none_iff (m : List (EthereumAddress × Nat)) (k : EthereumAddress) :
    mapLookup m k = none ↔ k ∉ mapKeys m := by
  induction m with
  | nil => simp [mapLookup, mapKeys]
  | cons p rest ih =>
    obtain ⟨a, b⟩ := p
    by_cases h : a = k
    · subst h
      simp [mapLookup, mapKeys]
    · simp [mapLookup, mapKeys, h, ih, Ne.symm h]

theorem mapRemove_eq_self_of_not_mem (m : List (EthereumAddress × Nat)) (k : EthereumAddress)
    (h : k ∉ mapKeys m) : mapRemove m k = m := by
  refine List.filter_eq_self.mpr ?_
  intro p hp
  have hne : p.1 ≠ k := by
    intro he
    exact h (List.mem_map.mpr ⟨p, hp, he⟩)
  simpa using hne

theorem mapKeys_remove_sublist (m : List (EthereumAddress × Nat)) (k : EthereumAddress) :
    List.Sublist (mapKeys (mapRemove m k)) (mapKeys m) :=
  (List.filter_sublist m).map Prod.fst

theorem not_mem_mapKeys_remove (m : List (EthereumAddress × Nat)) (k : EthereumAddress) :
    k ∉ mapKeys (mapRemove m k) := by
  intro hmem
  rcases List.mem_map.mp hmem with ⟨p, hp, hpk⟩
  have hkeep := List.of_mem_filter hp
  simp only [decide_eq_true_eq] at hkeep
  exact hkeep hpk

theorem mapLookup_remove_self (m : List (EthereumAddress × Nat)) (k : EthereumAddress) :
    mapLookup (mapRemove m k) k = none :=
  (mapLookup_eq_none_iff _ _).mpr (not_mem_mapKeys_remove m k)

theorem mapLookup_remove_ne (m : List (EthereumAddress × Nat)) (k a : EthereumAddress)
    (h : a ≠ k) : mapLookup (mapRemove m k) a = mapLookup m a := by
  induction m with
  | nil => simp [mapRemove]
  | cons p rest ih =>
    obtain ⟨x, b⟩ := p
    by_cases hx : x = k
    · subst hx
      have : mapRemove ((x, b) :: rest) x = mapRemove rest x := by
        simp [mapRemove]
      rw [this, ih]
      have hxa : x ≠ a := fun he => h he.symm
      simp [mapLookup, hxa]
    · have : mapRemove ((x, b) :: rest) k = (x, b) :: mapRemove rest k := by
        simp [mapRemove, hx]
      rw [this]
      by_cases hxa : x = a
      · subst hxa
        simp [mapLookup]
      · simp [mapLookup, hxa, ih]

theorem mapKeys_insert_nodup (m : List (EthereumAddress × Nat)) (k : EthereumAddress) (v : Nat)
    (h : (mapKeys m).Nodup) : (mapKeys (mapInsert m k v)).Nodup := by
  have : mapKeys (mapInsert m k v) = k :: mapKeys (mapRemove m k) := by
    simp [mapInsert, mapKeys]
  rw [this]
  exact List.Nodup.cons (not_mem_mapKeys_remove m k)
    ((mapKeys_remove_sublist m k).nodup h)

theorem mapLookup_le_sumValues (m : List (EthereumAddress × Nat)) (k : EthereumAddress)
    (b : Nat) (h : mapLookup m k = some b) : b ≤ sumValues m := by
  induction m with
  | nil => simp [mapLookup] at h
  | cons p rest ih =>
    obtain ⟨a, c⟩ := p
    by_cases ha : a = k
    · subst ha
      have hb : c = b := by simpa [mapLookup] using h
      subst hb
      simp only [sumValues, List.map_cons, List.sum_cons]
      exact Nat.le_add_right _ _
    · simp only [mapLookup, if_neg ha] at h
      have := ih h
      simp only [sumValues, List.map_cons, List.sum_cons] at *
      omega

theorem sumValues_remove_add (m : List (EthereumAddress × Nat)) (k : EthereumAddress) (b : Nat)
    (hnd : (mapKeys m).Nodup) (h : mapLookup m k = some b) :
    sumValues (mapRemove m k) + b = sumValues m := by
  induction m with
  | nil => simp [mapLookup] at h
  | cons p rest ih =>
    obtain ⟨a, c⟩ := p
    rw [mapKeys, List.map_cons, List.nodup_cons] at hnd
    obtain ⟨hna, hrest⟩ := hnd
    by_cases ha : a = k
    · subst ha
      have hb : c = b := by simpa [mapLookup] using h
      have hrm : mapRemove ((a, c) :: rest) a = mapRemove rest a := by
        simp [mapRemove]
      rw [hrm, mapRemove_eq_self_of_not_mem rest a hna]
      simp only [sumValues, List.map_cons, List.sum_cons]
      omega
    · simp only [mapLookup, if_neg ha] at h
      have hrm : mapRemove ((a, c) :: rest) k = (a, c) :: mapRemove rest k := by
        simp [mapRemove, ha]
      rw [hrm]
      have := ih hrest h
      simp only [sumValues, List.map_cons, List.sum_cons] at *
      omega

/-! ### Helper lemmas about genesis construction -/

theorem foldl_add_snd (seed : List (EthereumAddress × Nat)) :
    ∀ n : Nat, seed.foldl (fun acc p => acc + p.2) n = n + (seed.map Prod.snd).sum := by
  induction seed with
  | nil => intro n; simp
  | cons p rest ih =>
    intro n
    simp only [List.foldl_cons, List.map_cons, List.sum_cons, ih]
    omega

theorem mapKeys_foldl_insert_nodup (seed : List (EthereumAddress × Nat)) :
    ∀ m, (mapKeys m).Nodup →
      (mapKeys (seed.foldl (fun m p => mapInsert m p.1 p.2) m)).Nodup := by
  induction seed with
  | nil => intro m h; simpa using h
  | cons p rest ih =>
    intro m h
    simp only [List.foldl_cons]
    exact ih _ (mapKeys_insert_nodup m p.1 p.2 h)

theorem sumValues_foldl_insert (seed : List (EthereumAddress × Nat)) :
    ∀ m, (seed.map Prod.fst).Nodup → (∀ p ∈ seed, mapLookup m p.1 = none) →
      sumValues (seed.foldl (fun m p => mapInsert m p.1 p.2) m)
        = sumValues m + (seed.map Prod.snd).sum := by
  induction seed with
  | nil => intro m _ _; simp
  | cons p rest ih =>
    intro m hnd habs
    obtain ⟨a, b⟩ := p
    simp only [List.map_cons, List.nodup_cons] at hnd
    obtain ⟨hna, hrest⟩ := hnd
    have hm : mapLookup m a = none := habs (a, b) (List.mem_cons_self _ _)
    have hrm : mapRemove m a = m :=
      mapRemove_eq_self_of_not_mem m a ((mapLookup_eq_none_iff m a).mp hm)
    have hins : mapInsert m a b = (a, b) :: m := by simp [mapInsert, hrm]
    have habs2 : ∀ q ∈ rest, mapLookup ((a, b) :: m) q.1 = none := by
      intro q hq
      have hqa : a ≠ q.1 := by
        intro he
        apply hna
        rw [he]
        exact List.mem_map.mpr ⟨q, hq, rfl⟩
      simp only [mapLookup]
      rw [if_neg hqa]
      exact habs q (List.mem_cons_of_mem _ hq)
    simp only [List.foldl_cons]
    rw [hins, ih ((a, b) :: m) hrest habs2]
    simp only [sumValues, List.map_cons, List.sum_cons]
    omega

theorem genesisState_keys_nodup (seed : List (EthereumAddress × Nat)) :
    (mapKeys (genesisState seed).claims).Nodup :=
  mapKeys_foldl_insert_nodup seed [] (by simp [mapKeys])

theorem genesisState_total (seed : List (EthereumAddress × Nat)) :
    (genesisState seed).total = (seed.map Prod.snd).sum := by
  simp only [genesisState]
  rw [foldl_add_snd seed 0]
  omega

theorem genesisState_sum (seed : List (EthereumAddress × Nat))
    (hnd : (seed.map Prod.fst).Nodup) :
    sumValues (genesisState seed).claims = (seed.map Prod.snd).sum := by
  have h := sumValues_foldl_insert seed [] hnd (by intro p hp; simp [mapLookup])
  simpa [genesisState, sumValues] using h

/-! ### Characterization of the three branches of `claimCall` -/

theorem claimCall_invalid_sig (C : Crypto) (sender : AccountId) (sig : EcdsaSignature)
    (st : ModuleState) (h : ethRecover C sig sender = none) :
    claimCall C sender sig st = (st, ClaimOutcome.err "Invalid Ethereum signature") := by
  simp [claimCall, h]

theorem claimCall_no_claim (C : Crypto) (sender : AccountId) (sig : EcdsaSignature)
    (st : ModuleState) (signer : EthereumAddress)
    (h1 : ethRecover C sig sender = some signer)
    (h2 : mapLookup st.claims signer = none) :
    claimCall C sender sig st = (st, ClaimOutcome.err "Ethereum address has no claim") := by
  simp [claimCall, h1, h2]

theorem claimCall_success_eq (C : Crypto) (sender : AccountId) (sig : EcdsaSignature)
    (st : ModuleState) (signer : EthereumAddress) (b : Nat)
    (h1 : ethRecover C sig sender = some signer)
    (h2 : mapLookup st.claims signer = some b)
    (h3 : b ≤ st.total) :
    claimCall C sender sig st =
      ({ claims := mapRemove st.claims signer
         total := st.total - b
         balances := increaseFreeBalanceCreating st.balances sender b
         events := st.events ++ [(sender, signer, b)] }, ClaimOutcome.ok) := by
  simp only [claimCall, h1, h2]
  rw [if_neg]
  exact Nat.not_lt.mpr h3

theorem claimCall_not_fatal_of_sum (C : Crypto) (sender : AccountId) (sig : EcdsaSignature)
    (st : ModuleState) (hsum : st.total = sumValues st.claims) :
    (claimCall C sender sig st).2 ≠ ClaimOutcome.fatal := by
  cases hrec : ethRecover C sig sender with
  | none => rw [claimCall_invalid_sig C sender sig st hrec]; simp
  | some signer =>
    cases hlook : mapLookup st.claims signer with
    | none => rw [claimCall_no_claim C sender sig st signer hrec hlook]; simp
    | some b =>
      have hle : b ≤ st.total := hsum ▸ mapLookup_le_sumValues st.claims signer b hlook
      rw [claimCall_success_eq C sender sig st signer b hrec hlook hle]
      simp

theorem claimCall_preserves_wf (C : Crypto) (sender : AccountId) (sig : EcdsaSignature)
    (st : ModuleState) (hnd : (mapKeys st.claims).Nodup)
    (hsum : st.total = sumValues st.claims) :
    (mapKeys (claimCall C sender sig st).1.claims).Nodup ∧
      (claimCall C sender sig st).1.total = sumValues (claimCall C sender sig st).1.claims := by
  cases hrec : ethRecover C sig sender with
  | none => rw [claimCall_invalid_sig C sender sig st hrec]; exact ⟨hnd, hsum⟩
  | some signer =>
    cases hlook : mapLookup st.claims signer with
    | none => rw [claimCall_no_claim C sender sig st signer hrec hlook]; exact ⟨hnd, hsum⟩
    | some b =>
      have hle : b ≤ st.total := hsum ▸ mapLookup_le_sumValues st.claims signer b hlook
      rw [claimCall_success_eq C sender sig st signer b hrec hlook hle]
      dsimp only
      constructor
      · exact (mapKeys_remove_sublist st.claims signer).nodup hnd
      · have h := sumValues_remove_add st.claims signer b hnd hlook
        omega

theorem runCalls_preserves_wf (C : Crypto) (calls : List (AccountId × EcdsaSignature)) :
    ∀ st : ModuleState, (mapKeys st.claims).Nodup → st.total = sumValues st.claims →
      (mapKeys (runCalls C st calls).claims).Nodup ∧
        (runCalls C st calls).total = sumValues (runCalls C st calls).claims := by
  induction calls with
  | nil => intro st h1 h2; exact ⟨h1, h2⟩
  | cons c rest ih =>
    intro st h1 h2
    have h := claimCall_preserves_wf C c.1 c.2 st h1 h2
    have hrun : runCalls C st (c :: rest) = runCalls C (claimCall C c.1 c.2 st).1 rest := by
      simp [runCalls]
    rw [hrun]
    exact ih _ h.1 h.2

theorem claimCall_fatal_eq (C : Crypto) (sender : AccountId) (sig : EcdsaSignature)
    (st : ModuleState) (signer : EthereumAddress) (b : Nat)
    (h1 : ethRecover C sig sender = some signer)
    (h2 : mapLookup st.claims signer = some b)
    (h3 : st.total < b) :
    claimCall C sender sig st =
      ({ st with claims := mapRemove st.claims signer }, ClaimOutcome.fatal) := by
  simp only [claimCall, h1, h2]
  rw [if_pos]
  exact h3

/-! ### Claim C2: exact layout of the signed message -/

/-- C2: `create_msg` returns exactly the concatenation of the literal header
`"\x19Ethereum Signed Message:\n"`, the ASCII-decimal representation — written
most-significant-digit-first — of `len(claim text) + len(identifier)`, the
fixed claim text `"Pay DOTs to the Polkadot account:"` (33 bytes long), and
the identifier bytes verbatim, for identifiers of every length. -/
theorem create_msg_builds_exact_message (who : List Byte) :
    createMsg who =
      asBytes "\x19Ethereum Signed Message:\n" ++
        asciiDecimalMSB (claimText.length + who.length) ++ claimText ++ who ∧
    claimText.length = 33 := by
  constructor
  · rw [createMsg, decRev_eq_digits]
    rfl
  · rfl

/-! ### Claim C1: the Total invariant -/

/-- C1 counterexample: with a genesis seed list that repeats an address, the
map keeps only the last binding while `Total` is the fold-sum of all seed
balances, so `Total` differs from the sum of the balances present in the
ledger already at genesis. -/
theorem total_invariant_fails_on_duplicate_seed :
    (genesisState [(addr0, 1), (addr0, 2)]).total ≠
      sumValues (genesisState [(addr0, 1), (addr0, 2)]).claims := by
  decide

/-- C1 (amended): for every genesis seed list whose addresses are pairwise
distinct and every subsequent sequence of claim invocations (successful or
rejected), `Total` is seeded as the sum of the seed list and always equals the
sum of all balances currently present in the claims ledger. -/
theorem total_matches_ledger_sum (C : Crypto) (seed : List (EthereumAddress × Nat))
    (calls : List (AccountId × EcdsaSignature))
    (hnd : (seed.map Prod.fst).Nodup) :
    (genesisState seed).total = (seed.map Prod.snd).sum ∧
      (runCalls C (genesisState seed) calls).total =
        sumValues (runCalls C (genesisState seed) calls).claims := by
  refine ⟨genesisState_total seed, ?_⟩
  have h0 : (genesisState seed).total = sumValues (genesisState seed).claims := by
    rw [genesisState_total seed, genesisState_sum seed hnd]
  exact (runCalls_preserves_wf C calls (genesisState seed)
    (genesisState_keys_nodup seed) h0).2

theorem total_matches_ledger_sum_witness :
    ([(addr0, 5)].map Prod.fst).Nodup ∧
      ((genesisState [(addr0, 5)]).total = ([(addr0, 5)].map Prod.snd).sum ∧
        (runCalls demoCrypto (genesisState [(addr0, 5)]) [(sender0, sig0)]).total =
          sumValues (runCalls demoCrypto (genesisState [(addr0, 5)]) [(sender0, sig0)]).claims) :=
  ⟨by decide, total_matches_ledger_sum demoCrypto [(addr0, 5)] [(sender0, sig0)] (by decide)⟩

/-! ### Claim C3: address derivation in `eth_recover` -/

/-- C3: whenever `eth_recover` returns an address, that address is the last 20
bytes of keccak256 applied to the 64-byte public key obtained by dropping the
1-byte form marker from the 65-byte serialized key recovered from the ECDSA
signature over `keccak256(create_msg(identifier))`. -/
theorem eth_recover_derives_address (C : Crypto) (sig : EcdsaSignature) (who : List Byte)
    (addr : EthereumAddress) (h : ethRecover C sig who = some addr) :
    ∃ pk65,
      C.recoverPubkey (C.keccak256 (createMsg who)) (sig.r ++ sig.s) (i8ToU8 sig.v)
          = some pk65 ∧
      pk65.length = 65 ∧
      ecdsaRecover C sig (C.keccak256 (createMsg who)) = some ((pk65.drop 1).take 64) ∧
      ((pk65.drop 1).take 64).length = 64 ∧
      addr = (C.keccak256 ((pk65.drop 1).take 64)).drop
               ((C.keccak256 ((pk65.drop 1).take 64)).length - 20) ∧
      addr.length = 20 := by
  cases hrec : ecdsaRecover C sig (C.keccak256 (createMsg who)) with
  | none => simp [ethRecover, hrec] at h
  | some pk =>
    have haddr : addr = (C.keccak256 pk).drop 12 := by
      simp only [ethRecover, hrec, Option.some.injEq] at h
      exact h.symm
    by_cases hok : C.sigParseOk (sig.r ++ sig.s) = true
    · cases hrid : recoveryIdParse (i8ToU8 sig.v) with
      | none => simp [ecdsaRecover, hok, hrid] at hrec
      | some rid =>
        have hridval : rid = i8ToU8 sig.v := by
          by_cases h3 : i8ToU8 sig.v ≤ 3
          · rw [recoveryIdParse, if_pos h3] at hrid
            exact (Option.some.injEq _ _ ▸ hrid).symm
          · rw [recoveryIdParse, if_neg h3] at hrid
            exact Option.noConfusion hrid
        cases hpk : C.recoverPubkey (C.keccak256 (createMsg who)) (sig.r ++ sig.s) rid with
        | none => simp [ecdsaRecover, hok, hrid, hpk] at hrec
        | some pk65 =>
          have hpkeq : pk = (pk65.drop 1).take 64 := by
            have : ecdsaRecover C sig (C.keccak256 (createMsg who))
                = some ((pk65.drop 1).take 64) := by
              simp [ecdsaRecover, hok, hrid, hpk]
            rw [this] at hrec
            exact (Option.some.injEq _ _ ▸ hrec.symm)
          have hlen65 : pk65.length = 65 := C.recoverPubkey_length _ _ _ _ hpk
          refine ⟨pk65, ?_, hlen65, ?_, ?_, ?_, ?_⟩
          · rw [← hridval]
            exact hpk
          · rw [← hpkeq]
          · rw [List.length_take, List.length_drop, hlen65]
            omega
          · rw [haddr, hpkeq, C.keccak256_length]
          · rw [haddr, List.length_drop, C.keccak256_length]
    · have : ecdsaRecover C sig (C.keccak256 (createMsg who)) = none := by
        rw [ecdsaRecover, if_neg hok]
      rw [this] at hrec
      exact Option.noConfusion hrec

theorem eth_recover_derivation_witness :
    (ethRecover demoCrypto sig0 [1] = some addr0) ∧
      (∃ pk65,
        demoCrypto.recoverPubkey (demoCrypto.keccak256 (createMsg [1]))
            (sig0.r ++ sig0.s) (i8ToU8 sig0.v) = some pk65 ∧
        pk65.length = 65 ∧
        ecdsaRecover demoCrypto sig0 (demoCrypto.keccak256 (createMsg [1]))
            = some ((pk65.drop 1).take 64) ∧
        ((pk65.drop 1).take 64).length = 64 ∧
        addr0 = (demoCrypto.keccak256 ((pk65.drop 1).take 64)).drop
                  ((demoCrypto.keccak256 ((pk65.drop 1).take 64)).length - 20) ∧
        addr0.length = 20) :=
  ⟨by decide, eth_recover_derives_address demoCrypto sig0 [1] addr0 (by decide)⟩

/-! ### Claim C4: recovery-id handling -/

/-- C4: the code does not normalize a 27/28-style recovery id before use: with
identical signature bytes, recovery id 1 recovers a public key while
1 + 27 = 28 makes recovery fail outright, because `ecdsa_recover` passes the
raw byte to the external `RecoveryId::parse`, which accepts only 0..=3.  The
repo's own `real_eth_sig_works` test supplies a signature whose final recovery
byte is 0x1c = 28 and expects recovery to succeed, so the missing
normalization contradicts the code's own test. -/
theorem recovery_id_28_rejected_unnormalized :
    ecdsaRecover demoCrypto
        { r := List.replicate 32 0, s := List.replicate 32 0, v := 1 }
        (List.replicate 32 0) = some (List.replicate 64 0) ∧
      ecdsaRecover demoCrypto
        { r := List.replicate 32 0, s := List.replicate 32 0, v := 1 + 27 }
        (List.replicate 32 0) = none := by
  decide

/-! ### Claim C5: the success value of `claim` -/

/-- C5 counterexample: two successful claims that remove different balances
(100 and 7) produce identical success outcomes — the dispatchable returns
unit, so the removed `balance_due` is not returned to the caller as the
success value. -/
theorem claim_success_value_counterexample :
    (claimCall demoCrypto sender0 sig0 stateA).2 = ClaimOutcome.ok ∧
      (claimCall demoCrypto sender0 sig0 stateB).2 = ClaimOutcome.ok ∧
      mapLookup stateA.claims addr0 = some 100 ∧
      mapLookup stateB.claims addr0 = some 7 ∧
      (claimCall demoCrypto sender0 sig0 stateA).2 =
        (claimCall demoCrypto sender0 sig0 stateB).2 ∧
      (100 : Nat) ≠ 7 := by
  decide

/-- C5 (amended): a successful claim succeeds with the unit outcome; the
removed `balance_due` is credited to the caller and reported in the deposited
`Claimed` event `(sender, signer, balance_due)`, not returned as the success
value. -/
theorem claim_success_credits_and_reports_balance (C : Crypto) (sender : AccountId)
    (sig : EcdsaSignature) (st : ModuleState) (signer : EthereumAddress) (b : Nat)
    (h1 : ethRecover C sig sender = some signer)
    (h2 : mapLookup st.claims signer = some b)
    (h3 : b ≤ st.total) :
    claimCall C sender sig st =
      ({ claims := mapRemove st.claims signer
         total := st.total - b
         balances := increaseFreeBalanceCreating st.balances sender b
         events := st.events ++ [(sender, signer, b)] }, ClaimOutcome.ok) :=
  claimCall_success_eq C sender sig st signer b h1 h2 h3

theorem claim_success_credits_witness :
    (ethRecover demoCrypto sig0 sender0 = some addr0 ∧
      mapLookup stateA.claims addr0 = some 100 ∧ 100 ≤ stateA.total) ∧
      claimCall demoCrypto sender0 sig0 stateA =
        ({ claims := mapRemove stateA.claims addr0
           total := stateA.total - 100
           balances := increaseFreeBalanceCreating stateA.balances sender0 100
           events := stateA.events ++ [(sender0, addr0, 100)] }, ClaimOutcome.ok) :=
  ⟨⟨by decide, by decide, by decide⟩,
    claim_success_credits_and_reports_balance demoCrypto sender0 sig0 stateA addr0 100
      (by decide) (by decide) (by decide)⟩

/-! ### Claim C6: the fatal branch is unreachable under the invariant -/

/-- C6: if `Total` equals the sum of the ledger balances before the call, then
every balance obtainable from the ledger is at most `Total`, and the fatal
internal-consistency branch of `claim` (triggered when `Total` is smaller than
the removed balance) is unreachable. -/
theorem fatal_branch_unreachable (C : Crypto) (sender : AccountId) (sig : EcdsaSignature)
    (st : ModuleState) (hsum : st.total = sumValues st.claims) :
    (∀ a b, mapLookup st.claims a = some b → b ≤ st.total) ∧
      (claimCall C sender sig st).2 ≠ ClaimOutcome.fatal := by
  constructor
  · intro a b hb
    rw [hsum]
    exact mapLookup_le_sumValues st.claims a b hb
  · exact claimCall_not_fatal_of_sum C sender sig st hsum

theorem fatal_branch_unreachable_witness :
    (stateA.total = sumValues stateA.claims) ∧
      ((∀ a b, mapLookup stateA.claims a = some b → b ≤ stateA.total) ∧
        (claimCall demoCrypto sender0 sig0 stateA).2 ≠ ClaimOutcome.fatal) :=
  ⟨by decide, fatal_branch_unreachable demoCrypto sender0 sig0 stateA (by decide)⟩

/-! ### Claim C7: rejected claims do not mutate state -/

/-- C7: every invocation of `claim` that fails with a user-facing error
(invalid signature or no claim) leaves the whole module state — claims ledger,
total, caller balances, and event log — exactly as it was. -/
theorem rejected_claim_leaves_state_unchanged (C : Crypto) (sender : AccountId)
    (sig : EcdsaSignature) (st : ModuleState) (e : String)
    (h : (claimCall C sender sig st).2 = ClaimOutcome.err e) :
    (claimCall C sender sig st).1 = st := by
  cases hrec : ethRecover C sig sender with
  | none => simp [claimCall_invalid_sig C sender sig st hrec]
  | some signer =>
    cases hlook : mapLookup st.claims signer with
    | none => simp [claimCall_no_claim C sender sig st signer hrec hlook]
    | some b =>
      exfalso
      by_cases hb : st.total < b
      · rw [claimCall_fatal_eq C sender sig st signer b hrec hlook hb] at h
        simp at h
      · rw [claimCall_success_eq C sender sig st signer b hrec hlook (Nat.not_lt.mp hb)] at h
        simp at h

theorem rejected_claim_witness :
    ((claimCall demoCrypto sender0 sig0 stateEmpty).2 =
        ClaimOutcome.err "Ethereum address has no claim") ∧
      (claimCall demoCrypto sender0 sig0 stateEmpty).1 = stateEmpty :=
  ⟨by decide,
    rejected_claim_leaves_state_unchanged demoCrypto sender0 sig0 stateEmpty
      "Ethereum address has no claim" (by decide)⟩

/-! ### Claim C8: a claim can be redeemed exactly once -/

/-- C8: with a valid signature whose recovered address holds a claim, calling
`claim` twice with the same caller and signature succeeds exactly once: the
first call succeeds and removes the entry, so the second call fails with the
no-claim error. -/
theorem second_claim_fails (C : Crypto) (sender : AccountId) (sig : EcdsaSignature)
    (st : ModuleState) (signer : EthereumAddress) (b : Nat)
    (h1 : ethRecover C sig sender = some signer)
    (h2 : mapLookup st.claims signer = some b)
    (h3 : b ≤ st.total) :
    (claimCall C sender sig st).2 = ClaimOutcome.ok ∧
      (claimCall C sender sig (claimCall C sender sig st).1).2 =
        ClaimOutcome.err "Ethereum address has no claim" := by
  have hsucc := claimCall_success_eq C sender sig st signer b h1 h2 h3
  constructor
  · rw [hsucc]
  · have hclaims : (claimCall C sender sig st).1.claims = mapRemove st.claims signer := by
      rw [hsucc]
    have hlook2 : mapLookup (claimCall C sender sig st).1.claims signer = none := by
      rw [hclaims]
      exact mapLookup_remove_self st.claims signer
    rw [claimCall_no_claim C sender sig (claimCall C sender sig st).1 signer h1 hlook2]

theorem second_claim_fails_witness :
    (ethRecover demoCrypto sig0 sender0 = some addr0 ∧
      mapLookup stateA.claims addr0 = some 100 ∧ 100 ≤ stateA.total) ∧
      ((claimCall demoCrypto sender0 sig0 stateA).2 = ClaimOutcome.ok ∧
        (claimCall demoCrypto sender0 sig0 (claimCall demoCrypto sender0 sig0 stateA).1).2 =
          ClaimOutcome.err "Ethereum address has no claim") :=
  ⟨⟨by decide, by decide, by decide⟩,
    second_claim_fails demoCrypto sender0 sig0 stateA addr0 100
      (by decide) (by decide) (by decide)⟩

/-! ### Claim C9: all recovery failures collapse to `None` -/

/-- C9: `eth_recover` is a total function and returns `none` whenever the
signature bytes are rejected by the parser, the recovery id is outside the
accepted range, or curve recovery fails — all failure causes collapse to the
single `none` outcome with no distinction between them. -/
theorem eth_recover_failures_collapse_to_none (C : Crypto) (sig : EcdsaSignature)
    (who : List Byte)
    (h : C.sigParseOk (sig.r ++ sig.s) = false ∨ 4 ≤ i8ToU8 sig.v ∨
         C.recoverPubkey (C.keccak256 (createMsg who)) (sig.r ++ sig.s) (i8ToU8 sig.v)
           = none) :
    ethRecover C sig who = none := by
  have hrec : ecdsaRecover C sig (C.keccak256 (createMsg who)) = none := by
    rcases h with h | h | h
    · simp [ecdsaRecover, h]
    · have hid : recoveryIdParse (i8ToU8 sig.v) = none := by
        rw [recoveryIdParse, if_neg (by omega)]
      simp only [ecdsaRecover, hid]
      split <;> rfl
    · by_cases hok : C.sigParseOk (sig.r ++ sig.s) = true
      · by_cases h3 : i8ToU8 sig.v ≤ 3
        · have hid : recoveryIdParse (i8ToU8 sig.v) = some (i8ToU8 sig.v) := by
            rw [recoveryIdParse, if_pos h3]
          simp [ecdsaRecover, hok, hid, h]
        · have hid : recoveryIdParse (i8ToU8 sig.v) = none := by
            rw [recoveryIdParse, if_neg h3]
          simp [ecdsaRecover, hok, hid]
      · rw [ecdsaRecover, if_neg hok]
  simp [ethRecover, hrec]

theorem eth_recover_failures_witness :
    (4 ≤ i8ToU8 (5 : Int)) ∧
      ethRecover demoCrypto
        { r := List.replicate 32 0, s := List.replicate 32 0, v := 5 } [1] = none :=
  ⟨by decide,
    eth_recover_failures_collapse_to_none demoCrypto
      { r := List.replicate 32 0, s := List.replicate 32 0, v := 5 } [1]
      (Or.inr (Or.inl (by decide)))⟩

/-! ### Claim C10: frame of a successful claim -/

/-- C10: a successful claim mutates the ledger only at the recovered signer
address: every other address keeps its presence and balance, the signer's
entry is gone afterwards, no entry is ever added, and `Total` never
increases (it drops by exactly the removed balance). -/
theorem successful_claim_frame (C : Crypto) (sender : AccountId) (sig : EcdsaSignature)
    (st : ModuleState) (h : (claimCall C sender sig st).2 = ClaimOutcome.ok) :
    ∃ signer b, ethRecover C sig sender = some signer ∧
      mapLookup st.claims signer = some b ∧
      (∀ a, a ≠ signer →
        mapLookup (claimCall C sender sig st).1.claims a = mapLookup st.claims a) ∧
      mapLookup (claimCall C sender sig st).1.claims signer = none ∧
      (claimCall C sender sig st).1.total = st.total - b ∧
      (claimCall C sender sig st).1.total ≤ st.total := by
  cases hrec : ethRecover C sig sender with
  | none =>
    rw [claimCall_invalid_sig C sender sig st hrec] at h
    simp at h
  | some signer =>
    cases hlook : mapLookup st.claims signer with
    | none =>
      rw [claimCall_no_claim C sender sig st signer hrec hlook] at h
      simp at h
    | some b =>
      by_cases hb : st.total < b
      · rw [claimCall_fatal_eq C sender sig st signer b hrec hlook hb] at h
        simp at h
      · rw [claimCall_success_eq C sender sig st signer b hrec hlook (Nat.not_lt.mp hb)]
        dsimp only
        refine ⟨signer, b, rfl, hlook, ?_, ?_, rfl, ?_⟩
        · intro a ha
          exact mapLookup_remove_ne st.claims signer a ha
        · exact mapLookup_remove_self st.claims signer
        · omega

theorem successful_claim_frame_witness :
    ((claimCall demoCrypto sender0 sig0 stateA).2 = ClaimOutcome.ok) ∧
      (∃ signer b, ethRecover demoCrypto sig0 sender0 = some signer ∧
        mapLookup stateA.claims signer = some b ∧
        (∀ a, a ≠ signer →
          mapLookup (claimCall demoCrypto sender0 sig0 stateA).1.claims a =
            mapLookup stateA.claims a) ∧
        mapLookup (claimCall demoCrypto sender0 sig0 stateA).1.claims signer = none ∧
        (claimCall demoCrypto sender0 sig0 stateA).1.total = stateA.total - b ∧
        (claimCall demoCrypto sender0 sig0 stateA).1.total ≤ stateA.total) :=
  ⟨by decide, successful_claim_frame demoCrypto sender0 sig0 stateA (by decide)⟩

end PolkadotClaims
